import Mathlib

/-!
Shallow embedding of the blic/boune CLI core: value coercion, option and
argument parsing, the pipeline phases of the `Cli` runtime, and the
middleware chain, translated from the TypeScript source
(`packages/blic/tests/command.test.ts` [args module], `packages/boune/src/parser/options.ts`,
`packages/blic/src/prompt/index.ts` [tokenizer module], and the runtime in
`packages/boune/src/x/logger/index.ts`).

Modelling conventions:
* JavaScript numbers are represented exactly (`Rat`, plus signed infinity);
  float64 rounding is abstracted away — none of the verified properties
  depend on it.
* JavaScript runtime values stored in parsed-option / parsed-argument
  records are modelled by the `Value` type (undefined, null, boolean,
  number, string, array).
* `process.env` and the external collaborators (help renderer, suggestion
  provider) are injected as explicit parameters, matching their role as
  external interfaces of the core.
* `console.log` / `console.error` output is modelled as an ordered list of
  printed lines; ANSI color wrapping is abstracted to a plain prefix.
-/

/-- Declared type of an argument or option (`ArgumentType` in types.ts). -/
inductive ArgType where
  | string
  | number
  | boolean
deriving DecidableEq, Repr

/-- A JavaScript number that can result from `Number(string)` on a
successful parse: a finite value (exact, float rounding abstracted) or a
signed infinity.  `NaN` is represented by `Option.none` at use sites. -/
inductive JsNum where
  | finite (q : Rat)
  | inf (positive : Bool)
deriving DecidableEq, Repr

/-- A JavaScript runtime value as stored in `ParsedOptions` / `ParsedArgs`
records (TS type `unknown`). -/
inductive Value where
  | vUndefined
  | vNull
  | vBool (b : Bool)
  | vNum (n : JsNum)
  | vStr (s : String)
  | vList (vs : List Value)
deriving Repr

/-- JavaScript truthiness of a `Value` (objects/arrays are always truthy;
`undefined`/`null`/`false`/`0`/`""` are falsy). -/
def Value.truthy : Value → Bool
  | .vUndefined => false
  | .vNull => false
  | .vBool b => b
  | .vNum (.finite q) => q ≠ 0
  | .vNum (.inf _) => true
  | .vStr s => s ≠ ""
  | .vList _ => true

/-- JavaScript nullish coalescing `v ?? fallback`. -/
def jsNullish (v fallback : Value) : Value :=
  match v with
  | .vUndefined => fallback
  | .vNull => fallback
  | v => v

/-- Characters treated as whitespace by JavaScript string trimming in
`Number(string)` (ASCII whitespace plus the common Unicode space set). -/
def isJsWhitespace (c : Char) : Bool :=
  c = ' ' || c = '\t' || c = '\n' || c = '\r' ||
  c.val = 0x0b || c.val = 0x0c || c.val = 0xa0 || c.val = 0xfeff ||
  c.val = 0x1680 || (0x2000 ≤ c.val && c.val ≤ 0x200a) ||
  c.val = 0x2028 || c.val = 0x2029 || c.val = 0x202f ||
  c.val = 0x205f || c.val = 0x3000

/-- Trim leading and trailing JS whitespace from a character list. -/
def trimWS (cs : List Char) : List Char :=
  ((cs.dropWhile isJsWhitespace).reverse.dropWhile isJsWhitespace).reverse

/-- Decimal digit test. -/
def isDigitChar (c : Char) : Bool := '0' ≤ c && c ≤ '9'

/-- Numeric value of one digit in a given base, `none` if out of range. -/
def digitVal (base : Nat) (c : Char) : Option Nat :=
  let v : Option Nat :=
    if '0' ≤ c ∧ c ≤ '9' then some (c.toNat - '0'.toNat)
    else if 'a' ≤ c ∧ c ≤ 'f' then some (c.toNat - 'a'.toNat + 10)
    else if 'A' ≤ c ∧ c ≤ 'F' then some (c.toNat - 'A'.toNat + 10)
    else none
  match v with
  | some n => if n < base then some n else none
  | none => none

/-- Value of a digit string in the given base; `none` if any character is
not a valid digit of that base. -/
def digitsVal (base : Nat) : List Char → Option Nat → Option Nat
  | [], acc => acc
  | c :: rest, acc =>
    match acc, digitVal base c with
    | some a, some d => digitsVal base rest (some (a * base + d))
    | _, _ => none

/-- Base-10 value of a (digit-only) character list. -/
def decDigitsVal (cs : List Char) : Nat :=
  cs.foldl (fun a c => a * 10 + (c.toNat - '0'.toNat)) 0

/-- `10 ^ e` over the rationals for an integer exponent. -/
def pow10 (e : Int) : Rat :=
  if 0 ≤ e then (10 : Rat) ^ e.toNat else 1 / (10 : Rat) ^ (-e).toNat

/-- Parse the exponent part of a JS decimal literal (`e`/`E`, optional
sign, at least one digit, consuming the whole rest).  An empty rest means
"no exponent" (exponent 0). -/
def parseExponent (cs : List Char) : Option Int :=
  match cs with
  | [] => some 0
  | e :: rest =>
    if e = 'e' ∨ e = 'E' then
      match rest with
      | '+' :: ds => if ds ≠ [] then (digitsVal 10 ds (some 0)).map Int.ofNat else none
      | '-' :: ds => if ds ≠ [] then (digitsVal 10 ds (some 0)).map (fun n => -(Int.ofNat n)) else none
      | ds => if ds ≠ [] then (digitsVal 10 ds (some 0)).map Int.ofNat else none
    else none

/-- Parse an unsigned JS decimal literal (`DecimalDigits [. DecimalDigits]
[Exponent]` or `. DecimalDigits [Exponent]`), consuming the whole input. -/
def decLitParse (cs : List Char) : Option Rat :=
  let intPart := cs.takeWhile isDigitChar
  let r1 := cs.dropWhile isDigitChar
  match r1 with
  | [] => if intPart = [] then none else some (decDigitsVal intPart : Rat)
  | '.' :: r2 =>
    let fracPart := r2.takeWhile isDigitChar
    let r3 := r2.dropWhile isDigitChar
    if intPart = [] ∧ fracPart = [] then none
    else
      match parseExponent r3 with
      | none => none
      | some e =>
        some (((decDigitsVal intPart : Rat) +
               (decDigitsVal fracPart : Rat) / (10 : Rat) ^ fracPart.length) * pow10 e)
  | _ =>
    if intPart = [] then none
    else
      match parseExponent r1 with
      | none => none
      | some e => some ((decDigitsVal intPart : Rat) * pow10 e)

/-- Parse an unsigned `StrUnsignedDecimalLiteral`: `Infinity` or a decimal
literal. -/
def unsignedDecParse (cs : List Char) : Option JsNum :=
  if cs = "Infinity".toList then some (.inf true)
  else (decLitParse cs).map .finite

/-- Negate a `JsNum`. -/
def JsNum.neg : JsNum → JsNum
  | .finite q => .finite (-q)
  | .inf p => .inf (!p)

/-- Parse an optionally signed decimal literal (sign applies only to the
decimal/Infinity form, never to hex/octal/binary forms). -/
def signedDecParse (cs : List Char) : Option JsNum :=
  match cs with
  | '+' :: rest => unsignedDecParse rest
  | '-' :: rest => (unsignedDecParse rest).map JsNum.neg
  | _ => unsignedDecParse cs

/-- Parse a non-decimal integer literal `0x…`/`0o…`/`0b…` (case-insensitive
marker, at least one digit, consuming the whole input). -/
def nonDecParse (cs : List Char) : Option Nat :=
  match cs with
  | '0' :: m :: rest =>
    if m = 'x' ∨ m = 'X' then if rest ≠ [] then digitsVal 16 rest (some 0) else none
    else if m = 'o' ∨ m = 'O' then if rest ≠ [] then digitsVal 8 rest (some 0) else none
    else if m = 'b' ∨ m = 'B' then if rest ≠ [] then digitsVal 2 rest (some 0) else none
    else none
  | _ => none

/-- The string-to-number conversion performed by JavaScript
`Number(string)`: trim whitespace; empty string denotes `0`; otherwise a
non-decimal integer literal or an optionally signed decimal literal /
`Infinity`.  `none` models `NaN`. -/
def jsStrToNumber (s : String) : Option JsNum :=
  let cs := trimWS s.toList
  match cs with
  | [] => some (.finite 0)
  | _ =>
    match nonDecParse cs with
    | some n => some (.finite (n : Rat))
    | none => signedDecParse cs

/-- ASCII lowercasing, as applied by `String.prototype.toLowerCase` on the
ASCII range (the only inputs relevant to the fixed boolean literals). -/
def toLowerAsciiChar (c : Char) : Char :=
  if 'A' ≤ c ∧ c ≤ 'Z' then Char.ofNat (c.toNat + 32) else c

/-- ASCII lowercase of a string. -/
def toLowerAscii (s : String) : String :=
  String.mk (s.toList.map toLowerAsciiChar)

/-- Result of `coerceValue`. -/
inductive CoerceResult where
  | ok (v : Value)
  | err (msg : String)
deriving Repr

/-- `coerceValue(value, type)` from the args module: string passthrough,
number via `Number()` with a `NaN` check, boolean via lowercased literal
sets. -/
def coerceValue (value : String) (t : ArgType) : CoerceResult :=
  match t with
  | .string => .ok (.vStr value)
  | .number =>
    match jsStrToNumber value with
    | none => .err ("\"" ++ value ++ "\" is not a valid number")
    | some n => .ok (.vNum n)
  | .boolean =>
    let lower := toLowerAscii value
    if lower = "true" ∨ lower = "1" ∨ lower = "yes" then .ok (.vBool true)
    else if lower = "false" ∨ lower = "0" ∨ lower = "no" then .ok (.vBool false)
    else .err ("\"" ++ value ++ "\" is not a valid boolean")

mutual

/-- Decidable equality on `Value` (mutual with lists, since `deriving`
does not handle the nested occurrence). -/
def valueDecEq : (a b : Value) → Decidable (a = b)
  | .vUndefined, .vUndefined => .isTrue rfl
  | .vNull, .vNull => .isTrue rfl
  | .vBool x, .vBool y =>
    match decEq x y with
    | .isTrue h => .isTrue (by rw [h])
    | .isFalse h => .isFalse (by simp only [Value.vBool.injEq]; exact h)
  | .vNum x, .vNum y =>
    match decEq x y with
    | .isTrue h => .isTrue (by rw [h])
    | .isFalse h => .isFalse (by simp only [Value.vNum.injEq]; exact h)
  | .vStr x, .vStr y =>
    match decEq x y with
    | .isTrue h => .isTrue (by rw [h])
    | .isFalse h => .isFalse (by simp only [Value.vStr.injEq]; exact h)
  | .vList xs, .vList ys =>
    match valueListDecEq xs ys with
    | .isTrue h => .isTrue (by rw [h])
    | .isFalse h => .isFalse (by simp only [Value.vList.injEq]; exact h)
  | .vUndefined, .vNull | .vUndefined, .vBool _ | .vUndefined, .vNum _ | .vUndefined, .vStr _ | .vUndefined, .vList _ => .isFalse (by intro h; exact Value.noConfusion h)
  | .vNull, .vUndefined | .vNull, .vBool _ | .vNull, .vNum _ | .vNull, .vStr _ | .vNull, .vList _ => .isFalse (by intro h; exact Value.noConfusion h)
  | .vBool _, .vUndefined | .vBool _, .vNull | .vBool _, .vNum _ | .vBool _, .vStr _ | .vBool _, .vList _ => .isFalse (by intro h; exact Value.noConfusion h)
  | .vNum _, .vUndefined | .vNum _, .vNull | .vNum _, .vBool _ | .vNum _, .vStr _ | .vNum _, .vList _ => .isFalse (by intro h; exact Value.noConfusion h)
  | .vStr _, .vUndefined | .vStr _, .vNull | .vStr _, .vBool _ | .vStr _, .vNum _ | .vStr _, .vList _ => .isFalse (by intro h; exact Value.noConfusion h)
  | .vList _, .vUndefined | .vList _, .vNull | .vList _, .vBool _ | .vList _, .vNum _ | .vList _, .vStr _ => .isFalse (by intro h; exact Value.noConfusion h)

/-- Decidable equality on lists of `Value`. -/
def valueListDecEq : (a b : List Value) → Decidable (a = b)
  | [], [] => .isTrue rfl
  | [], _ :: _ => .isFalse (by intro h; exact List.noConfusion h)
  | _ :: _, [] => .isFalse (by intro h; exact List.noConfusion h)
  | x :: xs, y :: ys =>
    match valueDecEq x y, valueListDecEq xs ys with
    | .isTrue h1, .isTrue h2 => .isTrue (by rw [h1, h2])
    | .isFalse h1, _ => .isFalse (by simp only [List.cons.injEq]; intro hh; exact h1 hh.1)
    | _, .isFalse h2 => .isFalse (by simp only [List.cons.injEq]; intro hh; exact h2 hh.2)

end

instance : DecidableEq Value := valueDecEq

deriving instance DecidableEq for CoerceResult

/-- Token kinds produced by the tokenizer (`TokenType` in types.ts; the
`command` kind is declared there but never produced). -/
inductive TokenType where
  | command
  | argument
  | option
  | value
  | separator
deriving DecidableEq, Repr

/-- A token of the tokenizer output. -/
structure Token where
  ttype : TokenType
  value : String
  raw : String
deriving DecidableEq, Repr

/-- Kinds of validation errors (`ValidationError["type"]` string union). -/
inductive ErrKind where
  | missing_required
  | invalid_type
  | unknown_option
  | unknown_command
  | validation_failed
deriving DecidableEq, Repr

/-- A structured validation error. -/
structure ValidationError where
  etype : ErrKind
  message : String
  field : Option String
deriving DecidableEq, Repr

/-- A user-supplied validator (TS object with a `validate` method
returning `true` or an error message). -/
inductive ValidateResult where
  | passed
  | failure (msg : String)

/-- Validator wrapper (external user code, modelled as a function). -/
structure Validator where
  validate : Value → ValidateResult

/-- Positional-argument specification (`ArgumentDef` in types.ts).  An
absent `default` is JavaScript `undefined`, modelled as `Value.vUndefined`. -/
structure ArgumentDef where
  name : String
  required : Bool
  type : ArgType
  default : Value := .vUndefined
  variadic : Bool := false
  validate : Option Validator := none

/-- Option specification (`OptionDef` in types.ts). -/
structure OptionDef where
  name : String
  short : Option String := none
  type : ArgType
  required : Bool := false
  default : Value := .vUndefined
  env : Option String := none
  validate : Option Validator := none

/-- JavaScript object / `Map.set` assignment on a keyed record: replace
the value in place if the key exists, else append. -/
def mapSet {α : Type} (m : List (String × α)) (k : String) (v : α) : List (String × α) :=
  match m with
  | [] => [(k, v)]
  | (k', v') :: rest => if k' = k then (k, v) :: rest else (k', v') :: mapSet rest k v

/-- Keyed lookup on a record (first match; keys are unique by
construction via `mapSet`). -/
def mapGet {α : Type} (m : List (String × α)) (k : String) : Option α :=
  match m with
  | [] => none
  | (k', v) :: rest => if k' = k then some v else mapGet rest k

/-- Reading a record field in JavaScript: `undefined` when absent. -/
def getValue (m : List (String × Value)) (k : String) : Value :=
  (mapGet m k).getD .vUndefined

/-- JavaScript object spread `{...m1, ...m2}` (later keys override). -/
def jsMerge (m1 m2 : List (String × Value)) : List (String × Value) :=
  m2.foldl (fun acc kv => mapSet acc kv.1 kv.2) m1

-- ===========================================================================
-- parseArguments (args module)
-- ===========================================================================

/-- State threaded through the `parseArguments` loop: the args record, the
accumulated errors, and the value cursor (`valueIndex`). -/
structure ArgsState where
  args : List (String × Value)
  errors : List ValidationError
  idx : Nat
deriving Repr

/-- Coerce each value of a variadic remainder independently, collecting
the successfully coerced values and the coercion errors in order. -/
def coerceAll (name : String) (t : ArgType) : List String → List Value × List ValidationError
  | [] => ([], [])
  | v :: rest =>
    let (vs, es) := coerceAll name t rest
    match coerceValue v t with
    | .ok value => (value :: vs, es)
    | .err msg =>
      (vs, { etype := .invalid_type,
             message := "Invalid value for <" ++ name ++ ">: " ++ msg,
             field := some name } :: es)

/-- One iteration of the `parseArguments` definition loop (one
`ArgumentDef`). -/
def parseArgsStep (values : List String) (st : ArgsState) (d : ArgumentDef) : ArgsState :=
  if d.variadic then
    let remaining := values.drop st.idx
    if remaining = [] ∧ d.required then
      { args := mapSet st.args d.name (jsNullish d.default (.vList [])),
        errors := st.errors ++ [{ etype := .missing_required,
                                  message := "Missing required argument: <" ++ d.name ++ ">",
                                  field := some d.name }],
        idx := values.length }
    else
      let (coerced, errs) := coerceAll d.name d.type remaining
      { args := mapSet st.args d.name
          (if coerced ≠ [] then .vList coerced else jsNullish d.default (.vList [])),
        errors := st.errors ++ errs,
        idx := values.length }
  else
    match values.get? st.idx with
    | none =>
      { args := mapSet st.args d.name d.default,
        errors := st.errors ++
          (if d.required then
            [{ etype := .missing_required,
               message := "Missing required argument: <" ++ d.name ++ ">",
               field := some d.name }]
           else []),
        idx := st.idx }
    | some value =>
      match coerceValue value d.type with
      | .ok v =>
        { args := mapSet st.args d.name v, errors := st.errors, idx := st.idx + 1 }
      | .err msg =>
        { args := mapSet st.args d.name d.default,
          errors := st.errors ++ [{ etype := .invalid_type,
                                    message := "Invalid value for <" ++ d.name ++ ">: " ++ msg,
                                    field := some d.name }],
          idx := st.idx + 1 }

/-- The main `parseArguments` loop over the definitions. -/
def parseArgsCore (values : List String) (defs : List ArgumentDef) (st : ArgsState) : ArgsState :=
  defs.foldl (parseArgsStep values) st

/-- The validator pass at the end of `parseArguments`: for each
definition, if the final value is not `undefined` and a validator is
declared, a failure appends a `validation_failed` error. -/
def runArgValidators (defs : List ArgumentDef) (st : ArgsState) : ArgsState :=
  defs.foldl
    (fun s d =>
      let value := getValue s.args d.name
      match d.validate with
      | some val =>
        if value ≠ .vUndefined then
          match val.validate value with
          | .passed => s
          | .failure msg =>
            { s with errors := s.errors ++ [{ etype := .validation_failed,
                                              message := "Invalid value for <" ++ d.name ++ ">: " ++ msg,
                                              field := some d.name }] }
        else s
      | none => s)
    st

/-- Result of `parseArguments`. -/
structure ArgsParseResult where
  args : List (String × Value)
  errors : List ValidationError
deriving Repr

/-- `parseArguments(values, definitions)` from the args module. -/
def parseArguments (values : List String) (defs : List ArgumentDef) : ArgsParseResult :=
  let st := runArgValidators defs (parseArgsCore values defs { args := [], errors := [], idx := 0 })
  { args := st.args, errors := st.errors }

-- ===========================================================================
-- parseOptions (packages/boune/src/parser/options.ts)
-- ===========================================================================

/-- `buildOptionMap`: a `Map` keyed by long name and short alias
(`Map.set` overwrites, so insertion order is irrelevant to lookups). -/
def buildOptionMap (defs : List OptionDef) : List (String × OptionDef) :=
  defs.foldl
    (fun m d =>
      let m1 := mapSet m d.name d
      match d.short with
      | some s => mapSet m1 s d
      | none => m1)
    []

/-- Lookup in the option map built from the given definitions. -/
def optionMapGet (defs : List OptionDef) (key : String) : Option OptionDef :=
  mapGet (buildOptionMap defs) key

/-- State threaded through the `parseOptions` token loop. -/
structure OptState where
  options : List (String × Value)
  errors : List ValidationError
  remaining : List Token
  seen : List String
deriving Repr

/-- The `unknown_option` error for a token. -/
def unknownOptionError (t : Token) : ValidationError :=
  { etype := .unknown_option, message := "Unknown option: " ++ t.raw, field := some t.value }

/-- The `invalid_type` error for a bad explicit option value. -/
def optionInvalidValueError (d : OptionDef) (msg : String) : ValidationError :=
  { etype := .invalid_type,
    message := "Invalid value for --" ++ d.name ++ ": " ++ msg,
    field := some d.name }

/-- The `invalid_type` error for a non-boolean option without a usable value. -/
def optionRequiresValueError (d : OptionDef) : ValidationError :=
  { etype := .invalid_type,
    message := "Option --" ++ d.name ++ " requires a value",
    field := some d.name }

/-- The token loop of `parseOptions`, one case per branch of the source
`while` loop; the `Bool` argument is the `afterSeparator` flag.  The
look-ahead at `tokens[i + 1]` becomes a two-token head pattern, with a
separate singleton pattern for the `tokens[i + 1] === undefined` cases. -/
def parseOptsLoop (omap : String → Option OptionDef) (allowUnknown : Bool) :
    List Token → Bool → OptState → OptState
  | [], _, st => st
  | [t], afterSep, st =>
    if t.ttype = .separator then st
    else if afterSep ∨ t.ttype ≠ .option then { st with remaining := st.remaining ++ [t] }
    else
      match omap t.value with
      | none =>
        if allowUnknown then { st with remaining := st.remaining ++ [t] }
        else { st with errors := st.errors ++ [unknownOptionError t] }
      | some d =>
        let st1 := { st with seen := st.seen ++ [d.name] }
        if d.type = .boolean then
          { st1 with options := mapSet st1.options d.name (.vBool true) }
        else
          { st1 with errors := st1.errors ++ [optionRequiresValueError d] }
  | t :: nt :: rest, afterSep, st =>
    if t.ttype = .separator then
      parseOptsLoop omap allowUnknown (nt :: rest) true st
    else if afterSep ∨ t.ttype ≠ .option then
      parseOptsLoop omap allowUnknown (nt :: rest) afterSep
        { st with remaining := st.remaining ++ [t] }
    else
      match omap t.value with
      | none =>
        if allowUnknown then
          if nt.ttype = .value ∨ nt.ttype = .argument then
            parseOptsLoop omap allowUnknown rest afterSep
              { st with remaining := st.remaining ++ [t, nt] }
          else
            parseOptsLoop omap allowUnknown (nt :: rest) afterSep
              { st with remaining := st.remaining ++ [t] }
        else
          parseOptsLoop omap allowUnknown (nt :: rest) afterSep
            { st with errors := st.errors ++ [unknownOptionError t] }
      | some d =>
        let st1 := { st with seen := st.seen ++ [d.name] }
        if d.type = .boolean then
          if nt.ttype = .value then
            match coerceValue nt.value .boolean with
            | .ok v =>
              parseOptsLoop omap allowUnknown rest afterSep
                { st1 with options := mapSet st1.options d.name v }
            | .err _ =>
              parseOptsLoop omap allowUnknown (nt :: rest) afterSep
                { st1 with options := mapSet st1.options d.name (.vBool true) }
          else
            parseOptsLoop omap allowUnknown (nt :: rest) afterSep
              { st1 with options := mapSet st1.options d.name (.vBool true) }
        else
          if nt.ttype = .value then
            match coerceValue nt.value d.type with
            | .ok v =>
              parseOptsLoop omap allowUnknown rest afterSep
                { st1 with options := mapSet st1.options d.name v }
            | .err msg =>
              parseOptsLoop omap allowUnknown rest afterSep
                { st1 with errors := st1.errors ++ [optionInvalidValueError d msg] }
          else if nt.ttype = .argument then
            match coerceValue nt.value d.type with
            | .ok v =>
              parseOptsLoop omap allowUnknown rest afterSep
                { st1 with options := mapSet st1.options d.name v }
            | .err _ =>
              parseOptsLoop omap allowUnknown (nt :: rest) afterSep
                { st1 with errors := st1.errors ++ [optionRequiresValueError d] }
          else
            parseOptsLoop omap allowUnknown (nt :: rest) afterSep
              { st1 with errors := st1.errors ++ [optionRequiresValueError d] }

/-- The post-loop pass of `parseOptions`: for every definition not seen in
the token loop, resolve an environment-variable fallback, then the
declared default, then a `missing_required` error for required options. -/
def applyOptDefaults (env : String → Option String) (defs : List OptionDef) (st : OptState) : OptState :=
  defs.foldl
    (fun s d =>
      if d.name ∈ s.seen then s
      else
        let envHit : Option Value :=
          match d.env with
          | some ev =>
            match env ev with
            | some envValue =>
              match coerceValue envValue d.type with
              | .ok v => some v
              | .err _ => none
            | none => none
          | none => none
        match envHit with
        | some v => { s with options := mapSet s.options d.name v }
        | none =>
          if d.default ≠ .vUndefined then
            { s with options := mapSet s.options d.name d.default }
          else if d.required then
            { s with errors := s.errors ++ [{ etype := .missing_required,
                                              message := "Missing required option: --" ++ d.name,
                                              field := some d.name }] }
          else s)
    st

/-- The validator pass at the end of `parseOptions`. -/
def runOptValidators (defs : List OptionDef) (st : OptState) : OptState :=
  defs.foldl
    (fun s d =>
      let value := getValue s.options d.name
      match d.validate with
      | some val =>
        if value ≠ .vUndefined then
          match val.validate value with
          | .passed => s
          | .failure msg =>
            { s with errors := s.errors ++ [{ etype := .validation_failed,
                                              message := "Invalid value for --" ++ d.name ++ ": " ++ msg,
                                              field := some d.name }] }
        else s
      | none => s)
    st

/-- Result of `parseOptions`. -/
structure OptParseResult where
  options : List (String × Value)
  errors : List ValidationError
  remaining : List Token
deriving Repr

/-- `parseOptions(tokens, definitions, allowUnknown)`; `process.env` is
injected as the explicit read-only accessor `env`. -/
def parseOptions (env : String → Option String) (tokens : List Token)
    (defs : List OptionDef) (allowUnknown : Bool := false) : OptParseResult :=
  let st0 : OptState := { options := [], errors := [], remaining := [], seen := [] }
  let st1 := parseOptsLoop (optionMapGet defs) allowUnknown tokens false st0
  let st2 := runOptValidators defs (applyOptDefaults env defs st1)
  { options := st2.options, errors := st2.errors, remaining := st2.remaining }

-- ===========================================================================
-- tokenize (tokenizer module)
-- ===========================================================================

/-- Split a character list at the first `=` (JS `indexOf("=")`): the part
before and the part after, or `none` when no `=` occurs. -/
def splitEq : List Char → Option (List Char × List Char)
  | [] => none
  | c :: rest =>
    if c = '=' then some ([], rest)
    else (splitEq rest).map (fun p => (c :: p.1, p.2))

/-- Tokens for a long option element `--name` / `--name=value`. -/
def longOptionTokens (a : String) : List Token :=
  match splitEq a.toList with
  | some (before, after) =>
    let name := String.mk (before.drop 2)
    let value := String.mk after
    [⟨.option, name, a⟩, ⟨.value, value, value⟩]
  | none => [⟨.option, String.mk (a.toList.drop 2), a⟩]

/-- Tokens for one short flag character. -/
def shortFlagToken (c : Char) : Token :=
  ⟨.option, String.mk [c], String.mk ['-', c]⟩

/-- Tokens for a short option element `-v` / `-abc` / `-n=value`.  In the
degenerate `-=value` case the source reads `flags[-1]` (JS `undefined`)
and stringifies it, producing an option token named `"undefined"`. -/
def shortOptionTokens (a : String) : List Token :=
  match splitEq a.toList with
  | some (before, after) =>
    let flags := before.drop 1
    let value := String.mk after
    match flags.getLast? with
    | some last =>
      (flags.dropLast.map shortFlagToken) ++
        [shortFlagToken last, ⟨.value, value, value⟩]
    | none =>
      [⟨.option, "undefined", "-undefined"⟩, ⟨.value, value, value⟩]
  | none => (a.toList.drop 1).map shortFlagToken

/-- `String.prototype.startsWith`, computed over the character lists. -/
def strStarts (s pre : String) : Bool := pre.toList.isPrefixOf s.toList

/-- The tokenizer loop; the `Bool` is the `afterSeparator` flag. -/
def tokenizeLoop : List String → Bool → List Token
  | [], _ => []
  | a :: rest, true => ⟨.argument, a, a⟩ :: tokenizeLoop rest true
  | a :: rest, false =>
    if a = "--" then ⟨.separator, "--", a⟩ :: tokenizeLoop rest true
    else if strStarts a "--" then longOptionTokens a ++ tokenizeLoop rest false
    else if strStarts a "-" ∧ a.length > 1 then shortOptionTokens a ++ tokenizeLoop rest false
    else ⟨.argument, a, a⟩ :: tokenizeLoop rest false

/-- `tokenize(argv)` from the tokenizer module. -/
def tokenize (argv : List String) : List Token := tokenizeLoop argv false

-- ===========================================================================
-- Middleware chain and command execution (runtime module)
-- ===========================================================================

/-- A middleware handler test double: external user code modelled by its
observable behavior — entries it logs before calling `next`, an optional
exception thrown at that point, whether it calls `next` (at most once),
and entries it logs after `next` returns. -/
structure Handler where
  preLog : List String
  throws : Option String := none
  callsNext : Bool := true
  postLog : List String := []

/-- Run one handler with continuation `k` playing the role of `next`.
Result: the ordered log and the exception propagating out, if any. -/
def runHandler (h : Handler) (k : Unit → List String × Option String) :
    List String × Option String :=
  match h.throws with
  | some e => (h.preLog, some e)
  | none =>
    if h.callsNext then
      match k () with
      | (t, some e) => (h.preLog ++ t, some e)
      | (t, none) => (h.preLog ++ t ++ h.postLog, none)
    else (h.preLog ++ h.postLog, none)

/-- `runMiddleware(handlers, ctx, final)`: the continuation-passing runner
with a cursor — `next` at cursor `i` runs handler `i + 1`, or `final`
past the end. -/
def runMiddleware (handlers : List Handler) (final : Unit → List String × Option String) :
    List String × Option String :=
  match handlers with
  | [] => final ()
  | h :: rest => runHandler h (fun _ => runMiddleware rest final)

/-- The observable behavior of a command action test double: its log and
an optional thrown exception. -/
abbrev ActionBeh := List String × Option String

/-- A command configuration as consumed by the runtime (`CommandConfig`):
nested subcommand records, option/argument specs, optional action, `before`
and `after` middleware lists, and whether an `onError` handler is set. -/
inductive Cmd where
  | mk (name : String) (arguments : List ArgumentDef) (options : List OptionDef)
       (subcommands : List (String × Cmd)) (action : Option ActionBeh)
       (before : List Handler) (after : List Handler) (onError : Bool)

/-- Command name. -/
def Cmd.name : Cmd → String
  | .mk n _ _ _ _ _ _ _ => n

/-- Positional-argument specs. -/
def Cmd.arguments : Cmd → List ArgumentDef
  | .mk _ a _ _ _ _ _ _ => a

/-- Option specs. -/
def Cmd.options : Cmd → List OptionDef
  | .mk _ _ o _ _ _ _ _ => o

/-- Subcommand record. -/
def Cmd.subcommands : Cmd → List (String × Cmd)
  | .mk _ _ _ s _ _ _ _ => s

/-- Action double, if an action is declared. -/
def Cmd.action : Cmd → Option ActionBeh
  | .mk _ _ _ _ act _ _ _ => act

/-- Command `before` middleware. -/
def Cmd.before : Cmd → List Handler
  | .mk _ _ _ _ _ b _ _ => b

/-- Command `after` middleware. -/
def Cmd.after : Cmd → List Handler
  | .mk _ _ _ _ _ _ a _ => a

/-- Whether the command declares its own error handler. -/
def Cmd.onError : Cmd → Bool
  | .mk _ _ _ _ _ _ _ e => e

/-- CLI configuration (`CliConfig`), with the global middleware list and
whether a global `onError` handler is set. -/
structure CliConfig where
  name : String
  version : String
  commands : List (String × Cmd)
  globalOptions : List OptionDef
  middleware : List Handler := []
  onError : Bool := false

/-- External collaborators consumed by the pipeline (spec §6): the
environment accessor, the help renderers, and the suggestion provider. -/
structure Externals where
  env : String → Option String
  cliHelp : CliConfig → String
  cmdHelp : Cmd → String → List String → List OptionDef → String
  suggest : String → List (String × Cmd) → List String
  fmtSuggestions : List String → String

/-- `error(message)` from the output/format module, ANSI color wrapping
abstracted to the plain `error:` prefix. -/
def fmtError (m : String) : String := "error: " ++ m

-- ===========================================================================
-- Pipeline phases (runtime module)
-- ===========================================================================

/-- Per-invocation pipeline context (`PipelineContext`). -/
structure PipelineContext where
  argv : List String
  tokens : List Token
  globalOptions : List (String × Value)
  commandPath : List String
  command : Option Cmd
  parentCommands : List String
  commandOptions : List (String × Value)
  args : List (String × Value)
  errors : List ValidationError
  firstUnknownArg : Option String

/-- Result of one pipeline phase (`PhaseResult`). -/
inductive PhaseResult where
  | cont (ctx : PipelineContext)
  | exit (code : Option Nat)
  | exec (ctx : PipelineContext)

/-- A pipeline phase: context and configuration in, phase result plus
printed lines out (stdout and stderr merged in print order). -/
abbrev Phase := Externals → CliConfig → PipelineContext → PhaseResult × List String

/-- Phase 1: tokenize argv. -/
def tokenizePhase : Phase := fun _ _ ctx =>
  (.cont { ctx with tokens := tokenize ctx.argv }, [])

/-- Phase 2: parse global options (unknown allowed). -/
def parseGlobalOptionsPhase : Phase := fun ext cfg ctx =>
  let r := parseOptions ext.env ctx.tokens cfg.globalOptions true
  (.cont { ctx with globalOptions := r.options, tokens := r.remaining,
                    errors := ctx.errors ++ r.errors }, [])

/-- Phase 3: handle `--version` (`config.version || "0.0.0"`). -/
def handleVersionPhase : Phase := fun _ cfg ctx =>
  if (getValue ctx.globalOptions "version").truthy then
    (.exit none, [if cfg.version = "" then "0.0.0" else cfg.version])
  else (.cont ctx, [])

/-- Result of command-path extraction. -/
structure ExtractResult where
  commandPath : List String
  tokens : List Token
  firstUnknownArg : Option String
deriving Repr

/-- The token loop of `extractCommandPathPhase`.  The source's two
matching branches (`cmd && commandPath.length === 0` and
`cmd && commandPath.length > 0`) behave identically, so they are a single
case here: every matching `argument` token extends the path and descends;
every other token is kept, and a missed `argument` token before any match
sets `firstUnknownArg` once. -/
def extractLoop : List Token → List (String × Cmd) → List String → List Token →
    Option String → ExtractResult
  | [], _, path, acc, fua => ⟨path, acc, fua⟩
  | t :: rest, cur, path, acc, fua =>
    if t.ttype = .argument then
      match mapGet cur t.value with
      | some c => extractLoop rest c.subcommands (path ++ [t.value]) acc fua
      | none =>
        extractLoop rest cur path (acc ++ [t])
          (if path = [] ∧ fua = none then some t.value else fua)
    else extractLoop rest cur path (acc ++ [t]) fua

/-- The pure core of phase 4. -/
def extractCommandPath (commands : List (String × Cmd)) (tokens : List Token) : ExtractResult :=
  extractLoop tokens commands [] [] none

/-- Phase 4: extract the command path from the tokens. -/
def extractCommandPathPhase : Phase := fun _ cfg ctx =>
  let r := extractCommandPath cfg.commands ctx.tokens
  (.cont { ctx with commandPath := r.commandPath, tokens := r.tokens,
                    firstUnknownArg := r.firstUnknownArg }, [])

/-- Phase 5: handle `--help` at root level. -/
def handleRootHelpPhase : Phase := fun ext cfg ctx =>
  if (getValue ctx.globalOptions "help").truthy ∧ ctx.commandPath = [] then
    (.exit none, [ext.cliHelp cfg])
  else (.cont ctx, [])

/-- Printed suggestion lines for an unknown command (empty when the
provider returns no candidates). -/
def suggestionLines (ext : Externals) (cfg : CliConfig) (s : String) : List String :=
  let sug := ext.suggest s cfg.commands
  if sug = [] then [] else [ext.fmtSuggestions sug]

/-- Phase 6: handle no command / unknown command (the `firstUnknownArg`
truthiness check means a `some ""` behaves like `none`). -/
def handleNoCommandPhase : Phase := fun ext cfg ctx =>
  if ctx.commandPath = [] then
    match ctx.firstUnknownArg with
    | some s =>
      if s ≠ "" then
        (.exit (some 1), fmtError ("Unknown command: " ++ s) :: suggestionLines ext cfg s)
      else (.exit none, [ext.cliHelp cfg])
    | none => (.exit none, [ext.cliHelp cfg])
  else (.cont ctx, [])

/-- The descent loop of phase 7: the parent name is pushed before each
lookup, and a miss stops the walk at the current node. -/
def resolveLoop : Cmd → List String → List String → Cmd × List String
  | c, [], parents => (c, parents)
  | c, n :: rest, parents =>
    match mapGet c.subcommands n with
    | none => (c, parents ++ [c.name])
    | some sub => resolveLoop sub rest (parents ++ [c.name])

/-- Phase 7: resolve the `Cmd` and its ancestor chain from the path.  (An
empty path would index the command record with `undefined` in the source
and take the unknown-command branch; it is unreachable after phase 6.) -/
def resolveCommandPhase : Phase := fun ext cfg ctx =>
  match ctx.commandPath with
  | [] =>
    (.exit (some 1),
      fmtError ("Unknown command: " ++ String.intercalate " " ctx.commandPath) ::
        suggestionLines ext cfg "")
  | first :: rest =>
    match mapGet cfg.commands first with
    | none =>
      (.exit (some 1),
        fmtError ("Unknown command: " ++ String.intercalate " " ctx.commandPath) ::
          suggestionLines ext cfg first)
    | some c0 =>
      let r := resolveLoop c0 rest []
      (.cont { ctx with command := some r.1, parentCommands := r.2 }, [])

/-- Phase 8: handle `--help` for a resolved command. -/
def handleCommandHelpPhase : Phase := fun ext cfg ctx =>
  if (getValue ctx.globalOptions "help").truthy then
    match ctx.command with
    | some c => (.exit none, [ext.cmdHelp c cfg.name ctx.parentCommands cfg.globalOptions])
    | none => (.cont ctx, [])
  else (.cont ctx, [])

/-- Phase 9: parse command-specific options (unknown NOT allowed). -/
def parseCommandOptionsPhase : Phase := fun ext _ ctx =>
  match ctx.command with
  | none => (.cont ctx, [])
  | some c =>
    let r := parseOptions ext.env ctx.tokens c.options false
    (.cont { ctx with commandOptions := r.options, tokens := r.remaining,
                      errors := ctx.errors ++ r.errors }, [])

/-- Phase 10: parse positional arguments from the remaining `argument`
tokens. -/
def parseArgumentsPhase : Phase := fun _ _ ctx =>
  match ctx.command with
  | none => (.cont ctx, [])
  | some c =>
    let positional := (ctx.tokens.filter (fun t => t.ttype = .argument)).map Token.value
    let r := parseArguments positional c.arguments
    (.cont { ctx with args := r.args, errors := ctx.errors ++ r.errors }, [])

/-- Phase 11: validate — any accumulated error is printed (one line per
error) and the pipeline exits with code 1. -/
def validatePhase : Phase := fun _ _ ctx =>
  if ctx.errors ≠ [] then
    (.exit (some 1), ctx.errors.map (fun e => fmtError e.message))
  else (.cont ctx, [])

/-- Phase 12: hand over to execution if the command declares an action,
else print its help and exit.  (A `none` command would crash the source's
non-null assertion; it is unreachable after phases 6 and 7.) -/
def checkActionPhase : Phase := fun ext cfg ctx =>
  match ctx.command with
  | some c =>
    match c.action with
    | some _ => (.exec ctx, [])
    | none => (.exit none, [ext.cmdHelp c cfg.name ctx.parentCommands cfg.globalOptions])
  | none => (.exit none, [])

/-- All pipeline phases in order. -/
def phases : List Phase :=
  [tokenizePhase, parseGlobalOptionsPhase, handleVersionPhase, extractCommandPathPhase,
   handleRootHelpPhase, handleNoCommandPhase, resolveCommandPhase, handleCommandHelpPhase,
   parseCommandOptionsPhase, parseArgumentsPhase, validatePhase, checkActionPhase]

/-- Terminal state of the phase loop. -/
inductive PipeResult where
  | exited (code : Option Nat)
  | executed (ctx : PipelineContext)
  | finished (ctx : PipelineContext)

/-- The phase loop of `runPipeline`: run phases in order, stopping at the
first `exit` or `exec`, collecting printed lines. -/
def runPhases (ext : Externals) (cfg : CliConfig) :
    List Phase → PipelineContext → List String × PipeResult
  | [], ctx => ([], .finished ctx)
  | p :: ps, ctx =>
    match p ext cfg ctx with
    | (.cont c, out) =>
      let r := runPhases ext cfg ps c
      (out ++ r.1, r.2)
    | (.exit code, out) => (out, .exited code)
    | (.exec c, out) => (out, .executed c)

/-- `createInitialContext(argv)`. -/
def initialContext (argv : List String) : PipelineContext :=
  { argv := argv, tokens := [], globalOptions := [], commandPath := [], command := none,
    parentCommands := [], commandOptions := [], args := [], errors := [],
    firstUnknownArg := none }

/-- `runPipeline(argv)`: the full phase sequence from a fresh context. -/
def runPipeline (ext : Externals) (cfg : CliConfig) (argv : List String) :
    List String × PipeResult :=
  runPhases ext cfg phases (initialContext argv)

/-- The invocation context shared with middleware handlers
(`MiddlewareContext`), as constructed at the top of `executeAction`. -/
structure MiddlewareContext where
  command : Cmd
  args : List (String × Value)
  options : List (String × Value)
  rawArgs : List String

/-- The `middlewareCtx` built by `executeAction`: merged options
(`{...globalOptions, ...commandOptions}`) and `rawArgs` taken verbatim
from `ctx.argv`. -/
def middlewareCtxOf (c : Cmd) (ctx : PipelineContext) : MiddlewareContext :=
  { command := c, args := ctx.args,
    options := jsMerge ctx.globalOptions ctx.commandOptions, rawArgs := ctx.argv }

/-- The context object passed to the command action
(`{args, options, rawArgs: ctx.argv}`). -/
structure ActionContext where
  args : List (String × Value)
  options : List (String × Value)
  rawArgs : List String

/-- The argument `executeAction` passes to `command.action!`. -/
def actionCtxOf (ctx : PipelineContext) : ActionContext :=
  { args := ctx.args, options := jsMerge ctx.globalOptions ctx.commandOptions,
    rawArgs := ctx.argv }

/-- The `after` loop of `executeAction`: handlers run sequentially, each
with a no-op `next`; a thrown exception aborts the loop and propagates. -/
def runAfterHandlers : List Handler → List String × Option String
  | [] => ([], none)
  | h :: rest =>
    match runHandler h (fun _ => ([], none)) with
    | (t, some e) => (t, some e)
    | (t, none) =>
      let r := runAfterHandlers rest
      (t ++ r.1, r.2)

/-- The body of `executeAction`'s `try` block: the before chain (global
middleware then command `before`) around the action, then — only on
normal completion — the `after` loop, which is inside the same block. -/
def execTryBody (cfg : CliConfig) (c : Cmd) : List String × Option String :=
  match runMiddleware (cfg.middleware ++ c.before) (fun _ => c.action.getD ([], none)) with
  | (t, some e) => (t, some e)
  | (t, none) =>
    let ra := runAfterHandlers c.after
    (t ++ ra.1, ra.2)

/-- Terminal outcome of `executeAction`: normal completion, or the
exception routed to the command's error handler, else the global error
handler, else printed with `process.exit(1)`. -/
inductive ExecOutcome where
  | completed
  | handledByCommand (e : String)
  | handledByGlobal (e : String)
  | printExit1 (e : String)
deriving DecidableEq, Repr

/-- `executeAction(ctx)`: run the try block and route any caught
exception (`command.onError ?? this.config.onError`, else print and exit
1).  The handlers observe `middlewareCtxOf c ctx` and the action receives
`actionCtxOf ctx`; both are modelled as data doubles, so the context is
not threaded through their behavior. -/
def executeAction (cfg : CliConfig) (_ctx : PipelineContext) (c : Cmd) :
    List String × ExecOutcome :=
  match execTryBody cfg c with
  | (t, none) => (t, .completed)
  | (t, some e) =>
    if c.onError then (t, .handledByCommand e)
    else if cfg.onError then (t, .handledByGlobal e)
    else (t, .printExit1 e)

/-- Terminal outcome of a full `run`. -/
inductive RunOutcome where
  | pipelineExit (code : Option Nat)
  | actionRun (trace : List String) (res : ExecOutcome)

/-- `run(argv)`: the pipeline, handing an `execute` result to
`executeAction`.  (`finished` and an executing context without a command
are unreachable; they map to a plain exit.) -/
def runCli (ext : Externals) (cfg : CliConfig) (argv : List String) :
    List String × RunOutcome :=
  match runPipeline ext cfg argv with
  | (out, .exited code) => (out, .pipelineExit code)
  | (out, .finished _) => (out, .pipelineExit none)
  | (out, .executed ctx) =>
    match ctx.command with
    | some c =>
      let r := executeAction cfg ctx c
      (out, .actionRun r.1 r.2)
    | none => (out, .pipelineExit none)

-- ===========================================================================
-- Helper lemmas
-- ===========================================================================

/-- A decimal digit has code point between 48 and 57. -/
theorem isDigitChar_toNat {c : Char} (h : isDigitChar c = true) :
    48 ≤ c.toNat ∧ c.toNat ≤ 57 := by
  unfold isDigitChar at h
  simp only [Bool.and_eq_true, decide_eq_true_eq] at h
  obtain ⟨h1, h2⟩ := h
  rw [Char.le_def] at h1 h2
  exact ⟨UInt32.le_def.mp h1, UInt32.le_def.mp h2⟩

/-- Characters with distinct code points are distinct. -/
theorem char_ne_of_toNat_ne {c d : Char} (h : c.toNat ≠ d.toNat) : c ≠ d :=
  fun hh => h (by rw [hh])

/-- A decimal digit is not JS whitespace. -/
theorem digit_not_ws {c : Char} (h : isDigitChar c = true) : isJsWhitespace c = false := by
  obtain ⟨h1, h2⟩ := isDigitChar_toNat h
  have hne : ∀ d : Char, c.toNat ≠ d.toNat → (decide (c = d)) = false := by
    intro d hn
    simp only [decide_eq_false_iff_not]
    exact char_ne_of_toNat_ne hn
  have hvne : ∀ u : UInt32, c.toNat ≠ u.toNat → (decide (c.val = u)) = false := by
    intro u hn
    simp only [decide_eq_false_iff_not]
    intro hh; exact hn (by simpa using congrArg UInt32.toNat hh)
  have hvnle : ∀ u : UInt32, ¬ u.toNat ≤ c.toNat → (decide (u ≤ c.val)) = false := by
    intro u hn
    simp only [decide_eq_false_iff_not]
    intro hh; exact hn (UInt32.le_def.mp hh)
  unfold isJsWhitespace
  rw [hne ' ' (show c.toNat ≠ 32 by omega), hne '\t' (show c.toNat ≠ 9 by omega),
      hne '\n' (show c.toNat ≠ 10 by omega), hne '\r' (show c.toNat ≠ 13 by omega),
      hvne 0x0b (show c.toNat ≠ 11 by omega), hvne 0x0c (show c.toNat ≠ 12 by omega),
      hvne 0xa0 (show c.toNat ≠ 160 by omega), hvne 0xfeff (show c.toNat ≠ 65279 by omega),
      hvne 0x1680 (show c.toNat ≠ 5760 by omega),
      hvnle 0x2000 (show ¬ (8192 ≤ c.toNat) by omega),
      hvne 0x2028 (show c.toNat ≠ 8232 by omega), hvne 0x2029 (show c.toNat ≠ 8233 by omega),
      hvne 0x202f (show c.toNat ≠ 8239 by omega), hvne 0x205f (show c.toNat ≠ 8287 by omega),
      hvne 0x3000 (show c.toNat ≠ 12288 by omega)]
  simp

/-- `dropWhile` is the identity when the predicate fails on every element. -/
theorem dropWhile_eq_self_of_all {p : Char → Bool} :
    ∀ cs : List Char, (∀ c ∈ cs, p c = false) → cs.dropWhile p = cs := by
  intro cs h
  cases cs with
  | nil => rfl
  | cons a l =>
    have := h a (by simp)
    simp [List.dropWhile_cons, this]

/-- `takeWhile` is the identity when the predicate holds on every element. -/
theorem takeWhile_eq_self_of_all {p : Char → Bool} :
    ∀ cs : List Char, (∀ c ∈ cs, p c = true) → cs.takeWhile p = cs := by
  intro cs h
  induction cs with
  | nil => rfl
  | cons a l ih =>
    have ha := h a (by simp)
    simp only [List.takeWhile_cons, ha, if_true]
    rw [ih (fun c hc => h c (by simp [hc]))]

/-- `dropWhile` is empty when the predicate holds on every element. -/
theorem dropWhile_eq_nil_of_all {p : Char → Bool} :
    ∀ cs : List Char, (∀ c ∈ cs, p c = true) → cs.dropWhile p = [] := by
  intro cs h
  induction cs with
  | nil => rfl
  | cons a l ih =>
    have ha := h a (by simp)
    simp only [List.dropWhile_cons, ha, if_true]
    exact ih (fun c hc => h c (by simp [hc]))

/-- Trimming leaves a digit-only character list unchanged. -/
theorem trimWS_digits {cs : List Char} (h : ∀ c ∈ cs, isDigitChar c = true) :
    trimWS cs = cs := by
  unfold trimWS
  rw [dropWhile_eq_self_of_all cs (fun c hc => digit_not_ws (h c hc)),
      dropWhile_eq_self_of_all cs.reverse
        (fun c hc => digit_not_ws (h c (List.mem_reverse.mp hc))),
      List.reverse_reverse]

/-- A digit differs from any character with a code point above 57. -/
theorem char_ne_digit_of_big {c d : Char} (h : isDigitChar c = true) (hd : 57 < d.toNat) :
    c ≠ d := by
  obtain ⟨_, h2⟩ := isDigitChar_toNat h
  exact char_ne_of_toNat_ne (by omega)

/-- A digit differs from any character with a code point below 48. -/
theorem char_ne_digit_of_small {c d : Char} (h : isDigitChar c = true) (hd : d.toNat < 48) :
    c ≠ d := by
  obtain ⟨h1, _⟩ := isDigitChar_toNat h
  exact char_ne_of_toNat_ne (by omega)

/-- `jsStrToNumber` on a non-empty digit-only string is the base-10 value
of the digits. -/
theorem jsStrToNumber_digits {s : String} (hd : ∀ c ∈ s.toList, isDigitChar c = true)
    (hne : s.toList ≠ []) :
    jsStrToNumber s = some (.finite (decDigitsVal s.toList)) := by
  unfold jsStrToNumber
  rw [trimWS_digits hd]
  have hnonDec : nonDecParse s.toList = none := by
    unfold nonDecParse
    split
    · next m rest heq =>
      have hm : isDigitChar m = true := by
        apply hd
        rw [heq]; simp
      rw [if_neg, if_neg, if_neg]
      · rintro (h | h) <;> exact char_ne_digit_of_big hm (by decide) h
      · rintro (h | h) <;> exact char_ne_digit_of_big hm (by decide) h
      · rintro (h | h) <;> exact char_ne_digit_of_big hm (by decide) h
    · rfl
  have hdec : decLitParse s.toList = some ((decDigitsVal s.toList : Rat)) := by
    unfold decLitParse
    rw [takeWhile_eq_self_of_all s.toList hd, dropWhile_eq_nil_of_all s.toList hd]
    have hne' : ¬ (s.data = []) := hne
    simp [hne']
  have hsigned : signedDecParse s.toList = some (.finite (decDigitsVal s.toList)) := by
    unfold signedDecParse
    split
    · next rest heq =>
      exfalso
      have hplus : isDigitChar '+' = true := by
        apply hd; rw [heq]; simp
      exact absurd hplus (by decide)
    · next rest heq =>
      exfalso
      have hminus : isDigitChar '-' = true := by
        apply hd; rw [heq]; simp
      exact absurd hminus (by decide)
    · next =>
      unfold unsignedDecParse
      rw [if_neg, hdec]
      · rfl
      · intro heq
        have hI : isDigitChar 'I' = true := by
          apply hd; rw [heq]; simp
        exact absurd hI (by decide)
  cases hcs : s.toList with
  | nil => exact absurd hcs hne
  | cons a l =>
    simp only [hcs] at hnonDec hsigned ⊢
    rw [hnonDec]
    exact hsigned

/-- Membership in a three-element string list is the disjunction of the
three equalities. -/
theorem mem_three {L a b c : String} :
    L ∈ ([a, b, c] : List String) ↔ L = a ∨ L = b ∨ L = c := by simp

-- ===========================================================================
-- C3: numeric coercion
-- ===========================================================================

/-- C3 counterexample: `coerceValue(raw, number)` is not a strict decimal
parse — the empty string is accepted (yielding `0`), a hexadecimal
literal is accepted, surrounding whitespace is accepted, and an exponent
form is accepted, where the claim requires an error for each. -/
theorem c3_counterexample :
    coerceValue "" .number = .ok (.vNum (.finite 0)) ∧
    coerceValue "0x10" .number = .ok (.vNum (.finite 16)) ∧
    coerceValue " 7 " .number = .ok (.vNum (.finite 7)) ∧
    (∃ n, coerceValue "1e2" .number = .ok (.vNum n)) :=
  ⟨rfl, rfl, rfl, ⟨_, rfl⟩⟩

/-- C3 (amended): numeric coercion follows JavaScript `Number(string)`
semantics: every decimal numeral (non-empty digit string) yields exactly
its denoted base-10 value, and an error is returned exactly when
`Number(string)` yields `NaN` — which accepts, rather than rejects, the
empty string, whitespace, hexadecimal/octal/binary, exponent, and
`Infinity` forms. -/
theorem c3_number_coercion (s : String) :
    ((∀ c ∈ s.toList, isDigitChar c = true) → s.toList ≠ [] →
      coerceValue s .number = .ok (.vNum (.finite (decDigitsVal s.toList)))) ∧
    ((∃ m, coerceValue s .number = .err m) ↔ jsStrToNumber s = none) := by
  constructor
  · intro hd hne
    unfold coerceValue
    rw [jsStrToNumber_digits hd hne]
  · unfold coerceValue
    cases h : jsStrToNumber s with
    | none => simp
    | some n => simp

/-- Witness for `c3_number_coercion` at the decimal numeral `"42"`. -/
theorem c3_number_coercion_witness :
    coerceValue "42" .number = .ok (.vNum (.finite (decDigitsVal "42".toList))) :=
  (c3_number_coercion "42").1 (by decide) (by decide)

-- ===========================================================================
-- C4: boolean coercion
-- ===========================================================================

/-- C4 counterexample: `"TRUE"` is not one of the six literal strings,
yet boolean coercion accepts it (the source lowercases first), where the
claim requires an error for any other casing. -/
theorem c4_counterexample :
    coerceValue "TRUE" .boolean = .ok (.vBool true) ∧
    "TRUE" ∉ (["true", "1", "yes", "false", "0", "no"] : List String) :=
  ⟨rfl, by decide⟩

/-- C4 (amended): boolean coercion is case-insensitive — it yields `true`
exactly when the ASCII-lowercased input is `"true"`, `"1"` or `"yes"`,
`false` exactly when it is `"false"`, `"0"` or `"no"`, and an error
exactly otherwise. -/
theorem c4_boolean_coercion (s : String) :
    (coerceValue s .boolean = .ok (.vBool true) ↔
      toLowerAscii s ∈ (["true", "1", "yes"] : List String)) ∧
    (coerceValue s .boolean = .ok (.vBool false) ↔
      toLowerAscii s ∈ (["false", "0", "no"] : List String)) ∧
    ((∃ m, coerceValue s .boolean = .err m) ↔
      (toLowerAscii s ∉ (["true", "1", "yes"] : List String) ∧
       toLowerAscii s ∉ (["false", "0", "no"] : List String))) := by
  unfold coerceValue
  by_cases h1 : toLowerAscii s = "true" ∨ toLowerAscii s = "1" ∨ toLowerAscii s = "yes"
  · rw [if_pos h1]
    have hmemT : toLowerAscii s ∈ (["true", "1", "yes"] : List String) := mem_three.mpr h1
    have hmemF : toLowerAscii s ∉ (["false", "0", "no"] : List String) := by
      intro hF
      rcases h1 with h | h | h <;> rcases mem_three.mp hF with g | g | g <;>
        rw [h] at g <;> exact absurd g (by decide)
    refine ⟨iff_of_true rfl hmemT, iff_of_false (by simp) hmemF, ?_⟩
    apply iff_of_false
    · simp
    · intro hc
      exact hc.1 hmemT
  · rw [if_neg h1]
    by_cases h2 : toLowerAscii s = "false" ∨ toLowerAscii s = "0" ∨ toLowerAscii s = "no"
    · rw [if_pos h2]
      have hmemF : toLowerAscii s ∈ (["false", "0", "no"] : List String) := mem_three.mpr h2
      refine ⟨iff_of_false (by simp) (fun hT => h1 (mem_three.mp hT)),
              iff_of_true rfl hmemF, ?_⟩
      apply iff_of_false
      · simp
      · intro hc
        exact hc.2 hmemF
    · rw [if_neg h2]
      refine ⟨iff_of_false (by simp) (fun hT => h1 (mem_three.mp hT)),
              iff_of_false (by simp) (fun hF => h2 (mem_three.mp hF)), ?_⟩
      apply iff_of_true
      · exact ⟨_, rfl⟩
      · exact ⟨fun hT => h1 (mem_three.mp hT), fun hF => h2 (mem_three.mp hF)⟩

/-- Setting then reading the same key yields the written value. -/
theorem mapGet_mapSet {α : Type} (m : List (String × α)) (k : String) (v : α) :
    mapGet (mapSet m k v) k = some v := by
  induction m with
  | nil => simp [mapSet, mapGet]
  | cons kv rest ih =>
    obtain ⟨k', v'⟩ := kv
    unfold mapSet
    by_cases h : k' = k
    · simp [h, mapGet]
    · simp only [if_neg h]
      unfold mapGet
      simp [h, ih]

/-- The argument validator pass never changes the parsed values and only
appends errors. -/
theorem runArgValidators_frame (defs : List ArgumentDef) :
    ∀ s : ArgsState, (runArgValidators defs s).args = s.args ∧
      ∃ t, (runArgValidators defs s).errors = s.errors ++ t := by
  induction defs with
  | nil => intro s; exact ⟨rfl, [], by simp [runArgValidators]⟩
  | cons d rest ih =>
    intro s
    unfold runArgValidators at ih ⊢
    simp only [List.foldl_cons]
    split
    · next val =>
      split
      · split
        · exact ih s
        · next msg =>
          obtain ⟨ha, t, ht⟩ := ih _
          exact ⟨ha, _ :: t, by simpa using ht⟩
      · exact ih s
    · exact ih s

-- ===========================================================================
-- C5: boolean option flags
-- ===========================================================================

/-- C5 counterexample: a boolean `OptionFlag` immediately followed by an
`Argument` token `"false"` — which coerces to the boolean `false` — is
still set to `true` and the argument token is left unconsumed, where the
claim requires the explicit value to override and be consumed. -/
theorem c5_counterexample :
    parseOptions (fun _ => none)
        [⟨.option, "verbose", "--verbose"⟩, ⟨.argument, "false", "false"⟩]
        [{ name := "verbose", type := .boolean }] false =
      { options := [("verbose", .vBool true)], errors := [],
        remaining := [⟨.argument, "false", "false"⟩] } ∧
    coerceValue "false" .boolean = .ok (.vBool false) :=
  ⟨rfl, rfl⟩

/-- C5 (amended): when `parseOptions` meets a matched boolean-typed
`OptionFlag`, only an immediately following `OptionValue` token (produced
by `=` syntax) that coerces to a boolean overrides the default `true` and
is consumed; any other following token — in particular an `Argument`
token, whether or not it coerces to a boolean — leaves the option `true`
and is not consumed. -/
theorem c5_boolean_flag_value (omap : String → Option OptionDef) (allowUnknown : Bool)
    (t nt : Token) (rest : List Token) (st : OptState) (d : OptionDef)
    (ht : t.ttype = .option) (hd : omap t.value = some d) (hb : d.type = .boolean) :
    (∀ b, nt.ttype = .value → coerceValue nt.value .boolean = .ok (.vBool b) →
      parseOptsLoop omap allowUnknown (t :: nt :: rest) false st =
        parseOptsLoop omap allowUnknown rest false
          { st with options := mapSet st.options d.name (.vBool b),
                    seen := st.seen ++ [d.name] }) ∧
    (nt.ttype ≠ .value ∨ (∃ m, coerceValue nt.value .boolean = .err m) →
      parseOptsLoop omap allowUnknown (t :: nt :: rest) false st =
        parseOptsLoop omap allowUnknown (nt :: rest) false
          { st with options := mapSet st.options d.name (.vBool true),
                    seen := st.seen ++ [d.name] }) := by
  constructor
  · intro b hv hc
    simp [parseOptsLoop, ht, hd, hb, hv, hc]
  · intro hcase
    rcases hcase with hnv | ⟨m, hm⟩
    · simp [parseOptsLoop, ht, hd, hb, hnv]
    · by_cases hv : nt.ttype = .value
      · simp [parseOptsLoop, ht, hd, hb, hv, hm]
      · simp [parseOptsLoop, ht, hd, hb, hv]

/-- Witness for `c5_boolean_flag_value`: the `--verbose=false` form (an
`OptionValue` token) does override, and the positional `false` form (an
`Argument` token) does not. -/
theorem c5_boolean_flag_value_witness :
    (parseOptsLoop (optionMapGet [{ name := "verbose", type := .boolean }]) false
        [⟨.option, "verbose", "--verbose"⟩, ⟨.value, "false", "false"⟩] false
        { options := [], errors := [], remaining := [], seen := [] } =
      parseOptsLoop (optionMapGet [{ name := "verbose", type := .boolean }]) false [] false
        { options := [("verbose", Value.vBool false)], errors := [], remaining := [],
          seen := ["verbose"] }) ∧
    (parseOptsLoop (optionMapGet [{ name := "verbose", type := .boolean }]) false
        [⟨.option, "verbose", "--verbose"⟩, ⟨.argument, "false", "false"⟩] false
        { options := [], errors := [], remaining := [], seen := [] } =
      parseOptsLoop (optionMapGet [{ name := "verbose", type := .boolean }]) false
        [⟨.argument, "false", "false"⟩] false
        { options := [("verbose", Value.vBool true)], errors := [], remaining := [],
          seen := ["verbose"] }) :=
  ⟨(c5_boolean_flag_value (optionMapGet [{ name := "verbose", type := .boolean }]) false
      ⟨.option, "verbose", "--verbose"⟩ ⟨.value, "false", "false"⟩ []
      { options := [], errors := [], remaining := [], seen := [] }
      { name := "verbose", type := .boolean } rfl rfl rfl).1 false rfl rfl,
   (c5_boolean_flag_value (optionMapGet [{ name := "verbose", type := .boolean }]) false
      ⟨.option, "verbose", "--verbose"⟩ ⟨.argument, "false", "false"⟩ []
      { options := [], errors := [], remaining := [], seen := [] }
      { name := "verbose", type := .boolean } rfl rfl rfl).2 (Or.inl (by decide))⟩

-- ===========================================================================
-- C8: variadic required arguments
-- ===========================================================================

/-- C8 counterexample: a required variadic spec with a declared non-empty
default, given zero remaining values, is assigned that default — not an
empty collection — alongside the `MissingRequired` error. -/
theorem c8_counterexample :
    parseArguments []
        [{ name := "files", required := true, type := .string,
           default := .vList [.vStr "x"], variadic := true }] =
      { args := [("files", .vList [.vStr "x"])],
        errors := [{ etype := .missing_required,
                     message := "Missing required argument: <files>",
                     field := some "files" }] } ∧
    (Value.vList [.vStr "x"]) ≠ .vList [] :=
  ⟨rfl, by decide⟩

/-- C8 (amended): when the final spec is variadic and required and the
input leaves it zero remaining values, it is assigned `default ?? []` —
the declared default when present, otherwise an empty collection — which
is never undefined or null, and a `MissingRequired` error is recorded for
it. -/
theorem c8_variadic_required_empty (values : List String) (defs : List ArgumentDef)
    (vd : ArgumentDef) (hvar : vd.variadic = true) (hreq : vd.required = true)
    (hdrop : values.drop (parseArgsCore values defs { args := [], errors := [], idx := 0 }).idx = []) :
    getValue (parseArguments values (defs ++ [vd])).args vd.name =
      jsNullish vd.default (.vList []) ∧
    jsNullish vd.default (.vList []) ≠ .vUndefined ∧
    jsNullish vd.default (.vList []) ≠ .vNull ∧
    (∃ e ∈ (parseArguments values (defs ++ [vd])).errors,
      e.etype = .missing_required ∧ e.field = some vd.name) := by
  have hnn : jsNullish vd.default (.vList []) ≠ .vUndefined ∧
      jsNullish vd.default (.vList []) ≠ .vNull := by
    unfold jsNullish
    cases vd.default <;> simp
  have hcore : parseArgsCore values (defs ++ [vd]) { args := [], errors := [], idx := 0 } =
      parseArgsStep values (parseArgsCore values defs { args := [], errors := [], idx := 0 }) vd := by
    unfold parseArgsCore
    rw [List.foldl_append]
    rfl
  set st := parseArgsCore values defs { args := [], errors := [], idx := 0 } with hst
  have hstep : parseArgsStep values st vd =
      { args := mapSet st.args vd.name (jsNullish vd.default (.vList [])),
        errors := st.errors ++ [{ etype := .missing_required,
                                  message := "Missing required argument: <" ++ vd.name ++ ">",
                                  field := some vd.name }],
        idx := values.length } := by
    unfold parseArgsStep
    rw [if_pos hvar, if_pos (by exact ⟨hdrop, hreq⟩)]
  obtain ⟨hargs, tl, herrs⟩ := runArgValidators_frame (defs ++ [vd])
    (parseArgsStep values st vd)
  constructor
  · show getValue (runArgValidators (defs ++ [vd])
        (parseArgsCore values (defs ++ [vd]) { args := [], errors := [], idx := 0 })).args vd.name = _
    rw [hcore, hargs, hstep]
    unfold getValue
    rw [mapGet_mapSet]
    rfl
  refine ⟨hnn.1, hnn.2, ?_⟩
  show ∃ e ∈ (runArgValidators (defs ++ [vd])
      (parseArgsCore values (defs ++ [vd]) { args := [], errors := [], idx := 0 })).errors, _
  rw [hcore, herrs, hstep]
  refine ⟨{ etype := .missing_required,
            message := "Missing required argument: <" ++ vd.name ++ ">",
            field := some vd.name }, ?_, rfl, rfl⟩
  simp

/-- Witness for `c8_variadic_required_empty` at an empty spec prefix, no
input values, and a defaultless required variadic spec. -/
theorem c8_variadic_required_empty_witness :
    getValue (parseArguments []
        ([] ++ [{ name := "files", required := true, type := ArgType.string,
                  variadic := true }])).args "files" =
      jsNullish Value.vUndefined (.vList []) ∧
    jsNullish Value.vUndefined (.vList []) ≠ .vUndefined ∧
    jsNullish Value.vUndefined (.vList []) ≠ .vNull ∧
    (∃ e ∈ (parseArguments []
        ([] ++ [{ name := "files", required := true, type := ArgType.string,
                  variadic := true }])).errors,
      e.etype = ErrKind.missing_required ∧ e.field = some "files") :=
  c8_variadic_required_empty [] []
    { name := "files", required := true, type := ArgType.string, variadic := true }
    rfl rfl rfl

-- ===========================================================================
-- C1: command-path extraction
-- ===========================================================================

/-- Demo subcommand `b` of `a`, used for concrete extraction runs. -/
def demoCmdB : Cmd := .mk "b" [] [] [] (some (["b-action"], none)) [] [] false

/-- Demo command `a` with subcommand `b`. -/
def demoCmdA : Cmd := .mk "a" [] [] [("b", demoCmdB)] (some (["a-action"], none)) [] [] false

/-- C1 counterexample: with command `a` having subcommand `b`, the token
sequence `a x b` — where `x` matches nothing — still appends `b` to the
command path after the non-matching token, and resolution then descends
to `b`; the claim requires descent to stop permanently at `x`, with `a`
as the resolved command. -/
theorem c1_counterexample :
    extractCommandPath [("a", demoCmdA)]
        [⟨.argument, "a", "a"⟩, ⟨.argument, "x", "x"⟩, ⟨.argument, "b", "b"⟩] =
      { commandPath := ["a", "b"], tokens := [⟨.argument, "x", "x"⟩],
        firstUnknownArg := none } ∧
    (["a", "b"] : List String) ≠ ["a"] ∧
    (resolveLoop demoCmdA ["b"] []).1.name = "b" :=
  ⟨rfl, by decide, rfl⟩

/-- C1 (amended): once at least one segment has matched, each subsequent
`Argument` token that matches a subcommand name of the current node
extends the path and descends, and each non-matching `Argument` token is
kept as a positional token without stopping descent — the current node
and path are unchanged, so a later matching token still extends the path;
the resolved command is the node reached by following the whole matched
path. -/
theorem c1_descent_continues (cur : List (String × Cmd)) (path : List String)
    (acc : List Token) (fua : Option String) (t : Token) (rest : List Token)
    (hp : path ≠ []) (ht : t.ttype = .argument) :
    (∀ c, mapGet cur t.value = some c →
      extractLoop (t :: rest) cur path acc fua =
        extractLoop rest c.subcommands (path ++ [t.value]) acc fua) ∧
    (mapGet cur t.value = none →
      extractLoop (t :: rest) cur path acc fua =
        extractLoop rest cur path (acc ++ [t]) fua) := by
  constructor
  · intro c hc
    simp [extractLoop, ht, hc]
  · intro hc
    simp [extractLoop, ht, hc, hp]

/-- Witness for `c1_descent_continues` on the `a x b` scenario: after
matching `a`, the miss on `x` keeps the state, and the hit on `b` then
extends the path. -/
theorem c1_descent_continues_witness :
    (extractLoop [⟨.argument, "x", "x"⟩, ⟨.argument, "b", "b"⟩] [("b", demoCmdB)] ["a"] [] none =
      extractLoop [⟨.argument, "b", "b"⟩] [("b", demoCmdB)] ["a"] [⟨.argument, "x", "x"⟩] none) ∧
    (extractLoop [⟨.argument, "b", "b"⟩] [("b", demoCmdB)] ["a"] [⟨.argument, "x", "x"⟩] none =
      extractLoop [] demoCmdB.subcommands (["a"] ++ ["b"]) [⟨.argument, "x", "x"⟩] none) :=
  ⟨(c1_descent_continues [("b", demoCmdB)] ["a"] [] none ⟨.argument, "x", "x"⟩
      [⟨.argument, "b", "b"⟩] (by decide) rfl).2 rfl,
   (c1_descent_continues [("b", demoCmdB)] ["a"] [⟨.argument, "x", "x"⟩] none
      ⟨.argument, "b", "b"⟩ [] (by decide) rfl).1 demoCmdB rfl⟩

-- ===========================================================================
-- C2: middleware error boundary
-- ===========================================================================

/-- C2 counterexample: an exception thrown by an `after` middleware
handler is caught at the same boundary and routed to the command's error
handler — the `after` loop sits inside the `try` block — where the claim
requires it to propagate uncaught and never reach those handlers. -/
theorem c2_counterexample :
    executeAction
        { name := "app", version := "1", commands := [], globalOptions := [],
          middleware := [], onError := false }
        (initialContext [])
        (.mk "go" [] [] [] (some (["act"], none)) []
          [{ preLog := ["after-pre"], throws := some "boom" }] true) =
      (["act", "after-pre"], .handledByCommand "boom") :=
  rfl

/-- C2 (amended): an error raised by the terminal action, by a "before"
middleware handler, or by an "after" middleware handler is caught exactly
once at the outer middleware boundary and routed to the command's error
handler, else the global error handler, else printed with exit status 1;
when the before chain or the action throws, the `after` handlers are
skipped. -/
theorem c2_error_routing (cfg : CliConfig) (ctx : PipelineContext) (c : Cmd)
    (t : List String) (e : String) :
    (runMiddleware (cfg.middleware ++ c.before) (fun _ => c.action.getD ([], none)) =
        (t, some e) →
      executeAction cfg ctx c =
        (t, if c.onError then .handledByCommand e
            else if cfg.onError then .handledByGlobal e
            else .printExit1 e)) ∧
    (∀ t2, runMiddleware (cfg.middleware ++ c.before) (fun _ => c.action.getD ([], none)) =
        (t, none) → runAfterHandlers c.after = (t2, some e) →
      executeAction cfg ctx c =
        (t ++ t2, if c.onError then .handledByCommand e
                  else if cfg.onError then .handledByGlobal e
                  else .printExit1 e)) := by
  constructor
  · intro hmw
    unfold executeAction execTryBody
    rw [hmw]
    by_cases hc : c.onError <;> by_cases hg : cfg.onError <;> simp [hc, hg]
  · intro t2 hmw haf
    unfold executeAction execTryBody
    rw [hmw, haf]
    by_cases hc : c.onError <;> by_cases hg : cfg.onError <;> simp [hc, hg]

/-- Witness for `c2_error_routing`: a throwing `before` handler (no error
handlers declared: printed with exit 1) and a throwing `after` handler
(global error handler declared: routed there). -/
theorem c2_error_routing_witness :
    (executeAction
        { name := "app", version := "1", commands := [], globalOptions := [],
          middleware := [], onError := false }
        (initialContext [])
        (.mk "go" [] [] [] (some (["act"], none))
          [{ preLog := ["pre"], throws := some "bad" }] [] false) =
      (["pre"], .printExit1 "bad")) ∧
    (executeAction
        { name := "app", version := "1", commands := [], globalOptions := [],
          middleware := [], onError := true }
        (initialContext [])
        (.mk "go" [] [] [] (some (["act"], none)) []
          [{ preLog := ["c-pre"], throws := some "boom2" }] false) =
      (["act"] ++ ["c-pre"], .handledByGlobal "boom2")) :=
  ⟨(c2_error_routing
      { name := "app", version := "1", commands := [], globalOptions := [],
        middleware := [], onError := false }
      (initialContext [])
      (.mk "go" [] [] [] (some (["act"], none))
        [{ preLog := ["pre"], throws := some "bad" }] [] false)
      ["pre"] "bad").1 rfl,
   (c2_error_routing
      { name := "app", version := "1", commands := [], globalOptions := [],
        middleware := [], onError := true }
      (initialContext [])
      (.mk "go" [] [] [] (some (["act"], none)) []
        [{ preLog := ["c-pre"], throws := some "boom2" }] false)
      ["act"] "boom2").2 ["c-pre"] rfl rfl⟩

-- ===========================================================================
-- C7: middleware invocation order
-- ===========================================================================

/-- C7: with global middleware `[A]` and command middleware `before:[B]`,
`after:[C]`, where `A` and `B` call advance and resume, the observed
order is exactly A-pre, B-pre, action, B-post, A-post, C — for any labels
and any pipeline context. -/
theorem c7_middleware_order (a1 a2 b1 b2 c1 act : String) (ctx : PipelineContext) :
    executeAction
        { name := "app", version := "1", commands := [], globalOptions := [],
          middleware := [{ preLog := [a1], postLog := [a2] }], onError := false }
        ctx
        (.mk "go" [] [] [] (some ([act], none))
          [{ preLog := [b1], postLog := [b2] }] [{ preLog := [c1] }] false) =
      ([a1, b1, act, b2, a2, c1], .completed) := by
  rfl

-- ===========================================================================
-- C10: unknown options under allowUnknown
-- ===========================================================================

/-- The token loop never records an `unknown_option` error when unknown
options are allowed. -/
theorem parseOptsLoop_no_unknown (omap : String → Option OptionDef) :
    ∀ (toks : List Token) (afterSep : Bool) (st : OptState),
      (∀ e ∈ st.errors, e.etype ≠ ErrKind.unknown_option) →
      ∀ e ∈ (parseOptsLoop omap true toks afterSep st).errors,
        e.etype ≠ ErrKind.unknown_option := by
  intro toks afterSep st
  induction toks, afterSep, st using parseOptsLoop.induct omap true <;> intro hst <;>
    simp_all [parseOptsLoop, List.mem_append, unknownOptionError,
      optionInvalidValueError, optionRequiresValueError] <;>
    first
      | (rintro e (he | rfl)
         · exact hst e he
         · simp)
      | (rename_i ih
         apply ih
         rintro e (he | rfl)
         · exact hst e he
         · simp)

/-- The defaults/env pass only ever appends `missing_required` errors. -/
theorem applyOptDefaults_no_unknown (env : String → Option String) (defs : List OptionDef) :
    ∀ st : OptState, (∀ e ∈ st.errors, e.etype ≠ ErrKind.unknown_option) →
      ∀ e ∈ (applyOptDefaults env defs st).errors, e.etype ≠ ErrKind.unknown_option := by
  induction defs with
  | nil => intro st h; simpa [applyOptDefaults] using h
  | cons d rest ih =>
    intro st h
    unfold applyOptDefaults at ih ⊢
    simp only [List.foldl_cons]
    refine ih _ ?_
    intro e2 he2
    repeat' split at he2
    all_goals
      first
      | exact h e2 he2
      | (rcases List.mem_append.mp he2 with he3 | he3
         · exact h e2 he3
         · simp_all)

/-- The option validator pass only ever appends `validation_failed`
errors. -/
theorem runOptValidators_no_unknown (defs : List OptionDef) :
    ∀ st : OptState, (∀ e ∈ st.errors, e.etype ≠ ErrKind.unknown_option) →
      ∀ e ∈ (runOptValidators defs st).errors, e.etype ≠ ErrKind.unknown_option := by
  induction defs with
  | nil => intro st h; simpa [runOptValidators] using h
  | cons d rest ih =>
    intro st h
    unfold runOptValidators at ih ⊢
    simp only [List.foldl_cons]
    refine ih _ ?_
    intro e2 he2
    repeat' split at he2
    all_goals
      first
      | exact h e2 he2
      | (rcases List.mem_append.mp he2 with he3 | he3
         · exact h e2 he3
         · simp_all)

/-- C10: with `allowUnknown = true`, `parseOptions` records no
`unknown_option` error for any input; an unmatched `OptionFlag` token is
pushed onto the remaining list, with an immediately following
`OptionValue` or `Argument` token pushed right after it (any other
follower is left to be processed on its own). -/
theorem c10_allow_unknown :
    (∀ (env : String → Option String) (toks : List Token) (defs : List OptionDef),
      ∀ e ∈ (parseOptions env toks defs true).errors, e.etype ≠ ErrKind.unknown_option) ∧
    (∀ (omap : String → Option OptionDef) (st : OptState) (t nt : Token) (rest : List Token),
      t.ttype = .option → omap t.value = none →
      (nt.ttype = .value ∨ nt.ttype = .argument) →
      parseOptsLoop omap true (t :: nt :: rest) false st =
        parseOptsLoop omap true rest false
          { st with remaining := st.remaining ++ [t, nt] }) ∧
    (∀ (omap : String → Option OptionDef) (st : OptState) (t nt : Token) (rest : List Token),
      t.ttype = .option → omap t.value = none →
      ¬(nt.ttype = .value ∨ nt.ttype = .argument) →
      parseOptsLoop omap true (t :: nt :: rest) false st =
        parseOptsLoop omap true (nt :: rest) false
          { st with remaining := st.remaining ++ [t] }) ∧
    (∀ (omap : String → Option OptionDef) (st : OptState) (t : Token),
      t.ttype = .option → omap t.value = none →
      parseOptsLoop omap true [t] false st = { st with remaining := st.remaining ++ [t] }) := by
  refine ⟨?_, ?_, ?_, ?_⟩
  · intro env toks defs e he
    exact runOptValidators_no_unknown defs _
      (applyOptDefaults_no_unknown env defs _
        (parseOptsLoop_no_unknown (optionMapGet defs) toks false
          { options := [], errors := [], remaining := [], seen := [] } (by simp)))
      e he
  · intro omap st t nt rest ht hm hnt
    simp [parseOptsLoop, ht, hm, hnt]
  · intro omap st t nt rest ht hm hnt
    simp [parseOptsLoop, ht, hm, hnt]
  · intro omap st t ht hm
    simp [parseOptsLoop, ht, hm]

/-- Witness for `c10_allow_unknown`: a run with an unknown flag and a
missing required option records only the `missing_required` error, and
the unknown flag plus its follower are pushed in order. -/
theorem c10_allow_unknown_witness :
    (({ etype := ErrKind.missing_required, message := "Missing required option: --port",
        field := some "port" } : ValidationError).etype ≠ ErrKind.unknown_option) ∧
    (parseOptsLoop (fun _ => none) true
        [⟨.option, "wat", "--wat"⟩, ⟨.argument, "7", "7"⟩] false
        { options := [], errors := [], remaining := [], seen := [] } =
      parseOptsLoop (fun _ => none) true [] false
        { options := [], errors := [],
          remaining := [⟨.option, "wat", "--wat"⟩, ⟨.argument, "7", "7"⟩], seen := [] }) :=
  ⟨c10_allow_unknown.1 (fun _ => none) [⟨.option, "wat", "--wat"⟩]
      [{ name := "port", type := .number, required := true }]
      { etype := ErrKind.missing_required, message := "Missing required option: --port",
        field := some "port" } (by decide),
   c10_allow_unknown.2.1 (fun _ => none)
      { options := [], errors := [], remaining := [], seen := [] }
      ⟨.option, "wat", "--wat"⟩ ⟨.argument, "7", "7"⟩ [] rfl rfl (Or.inr rfl)⟩

-- ===========================================================================
-- C9: argv is a frame condition of the pipeline
-- ===========================================================================

/-- A phase preserves the `argv` field of every context it continues or
executes with. -/
def argvPreserving (p : Phase) : Prop :=
  ∀ (ext : Externals) (cfg : CliConfig) (ctx c : PipelineContext),
    ((p ext cfg ctx).1 = .cont c ∨ (p ext cfg ctx).1 = .exec c) → c.argv = ctx.argv

/-- Every one of the twelve pipeline phases preserves `argv`. -/
theorem phases_argvPreserving : ∀ p ∈ phases, argvPreserving p := by
  intro p hp
  simp only [phases, List.mem_cons, List.not_mem_nil, or_false] at hp
  rcases hp with rfl | rfl | rfl | rfl | rfl | rfl | rfl | rfl | rfl | rfl | rfl | rfl <;>
  · intro ext cfg ctx c h
    simp only [tokenizePhase, parseGlobalOptionsPhase, handleVersionPhase,
      extractCommandPathPhase, handleRootHelpPhase, handleNoCommandPhase, resolveCommandPhase,
      handleCommandHelpPhase, parseCommandOptionsPhase, parseArgumentsPhase, validatePhase,
      checkActionPhase] at h
    repeat' split at h
    all_goals
      rcases h with h | h <;> simp at h <;> (try subst h) <;> rfl

/-- The `argv` of the context a phase run executes with equals the `argv`
of the context it started from, provided each phase preserves it. -/
theorem runPhases_executed_argv (ext : Externals) (cfg : CliConfig) :
    ∀ (ps : List Phase) (ctx : PipelineContext),
      (∀ p ∈ ps, argvPreserving p) → ∀ ctxe, (runPhases ext cfg ps ctx).2 = .executed ctxe →
        ctxe.argv = ctx.argv := by
  intro ps
  induction ps with
  | nil =>
    intro ctx _ ctxe h
    simp [runPhases] at h
  | cons p ps ih =>
    intro ctx hall ctxe h
    unfold runPhases at h
    rcases hp : p ext cfg ctx with ⟨r, out⟩
    rw [hp] at h
    cases r with
    | cont c =>
      simp only at h
      have h2 := ih c (fun q hq => hall q (List.mem_cons_of_mem _ hq)) ctxe h
      rw [h2]
      exact hall p (List.mem_cons_self _ _) ext cfg ctx c (Or.inl (by rw [hp]))
    | exit code => simp at h
    | exec c =>
      simp only at h
      cases h
      exact hall p (List.mem_cons_self _ _) ext cfg ctx ctxe (Or.inr (by rw [hp]))

/-- Concrete external collaborators for witness runs. -/
def demoExt : Externals :=
  { env := fun _ => none, cliHelp := fun _ => "cli-help",
    cmdHelp := fun c _ _ _ => "help:" ++ c.name,
    suggest := fun _ _ => [], fmtSuggestions := fun _ => "suggestions" }

/-- Concrete CLI configuration for witness runs. -/
def demoCfg : CliConfig :=
  { name := "app", version := "1.0.0", commands := [("a", demoCmdA)], globalOptions := [] }

/-- C9: every pipeline phase leaves the `argv` field unchanged, so for
every invocation that reaches execution, the executing context carries the
original argv, and both the action context and the middleware context
deliver exactly that list as `rawArgs`. -/
theorem c9_argv_frame :
    (∀ p ∈ phases, argvPreserving p) ∧
    (∀ (ext : Externals) (cfg : CliConfig) (argv : List String) (ctxe : PipelineContext),
      (runPipeline ext cfg argv).2 = .executed ctxe →
      ctxe.argv = argv ∧ (actionCtxOf ctxe).rawArgs = argv ∧
      ∀ c : Cmd, (middlewareCtxOf c ctxe).rawArgs = argv) := by
  refine ⟨phases_argvPreserving, ?_⟩
  intro ext cfg argv ctxe h
  have hargv := runPhases_executed_argv ext cfg phases (initialContext argv)
    phases_argvPreserving ctxe h
  exact ⟨hargv, hargv, fun c => hargv⟩

/-- Witness for `c9_argv_frame`: a concrete run that reaches execution
with the original argv intact, plus `argvPreserving` instantiated at the
tokenize phase. -/
theorem c9_argv_frame_witness :
    (runPipeline demoExt demoCfg ["a"]).2 =
      PipeResult.executed
        { argv := ["a"], tokens := [], globalOptions := [], commandPath := ["a"],
          command := some demoCmdA, parentCommands := [], commandOptions := [], args := [],
          errors := [], firstUnknownArg := none } ∧
    ({ argv := ["a"], tokens := [], globalOptions := [], commandPath := ["a"],
       command := some demoCmdA, parentCommands := [], commandOptions := [], args := [],
       errors := [], firstUnknownArg := none } : PipelineContext).argv = ["a"] ∧
    argvPreserving tokenizePhase :=
  ⟨rfl,
   (c9_argv_frame.2 demoExt demoCfg ["a"]
      { argv := ["a"], tokens := [], globalOptions := [], commandPath := ["a"],
        command := some demoCmdA, parentCommands := [], commandOptions := [], args := [],
        errors := [], firstUnknownArg := none } rfl).1,
   c9_argv_frame.1 tokenizePhase (by simp [phases])⟩

-- ===========================================================================
-- C6: validation surfaces all accumulated errors
-- ===========================================================================

/-- Phase runs decompose over list append: the second leg runs only when
the first finishes without exiting or executing. -/
theorem runPhases_append (ext : Externals) (cfg : CliConfig) (l2 : List Phase) :
    ∀ (l1 : List Phase) (ctx : PipelineContext),
      runPhases ext cfg (l1 ++ l2) ctx =
        match runPhases ext cfg l1 ctx with
        | (out, .finished c) =>
          let r := runPhases ext cfg l2 c
          (out ++ r.1, r.2)
        | (out, .exited code) => (out, .exited code)
        | (out, .executed c) => (out, .executed c) := by
  intro l1
  induction l1 with
  | nil => intro ctx; simp [runPhases]
  | cons p l1 ih =>
    intro ctx
    simp only [List.cons_append]
    conv_lhs => rw [runPhases]
    conv_rhs => rw [runPhases]
    rcases hp : p ext cfg ctx with ⟨r, out⟩
    cases r with
    | cont c =>
      simp only
      rw [ih c]
      rcases hr : runPhases ext cfg l1 c with ⟨out1, res1⟩
      cases res1 <;> simp [List.append_assoc]
    | exit code => simp
    | exec c => simp

/-- C6: for every run that reaches the command-option parse phase (the
first eight phases finish on context `ctx8` with a resolved command),
the errors carried in plus the errors of the option parse pass plus the
errors of the argument parse pass are surfaced together at the Validate
phase: whenever that accumulated list is non-empty, every accumulated
error is printed (one `error:`-prefixed line each, in order), the
pipeline exits with code 1, and the command action is never executed. -/
theorem c6_validate_surfaces_all (ext : Externals) (cfg : CliConfig) (argv : List String)
    (out8 : List String) (ctx8 : PipelineContext) (c : Cmd)
    (h8 : runPhases ext cfg (phases.take 8) (initialContext argv) = (out8, .finished ctx8))
    (hcmd : ctx8.command = some c)
    (hne : ctx8.errors ++ (parseOptions ext.env ctx8.tokens c.options false).errors ++
        (parseArguments
          ((((parseOptions ext.env ctx8.tokens c.options false).remaining).filter
            (fun t => t.ttype = .argument)).map Token.value) c.arguments).errors ≠ []) :
    runCli ext cfg argv =
      (out8 ++ (ctx8.errors ++ (parseOptions ext.env ctx8.tokens c.options false).errors ++
        (parseArguments
          ((((parseOptions ext.env ctx8.tokens c.options false).remaining).filter
            (fun t => t.ttype = .argument)).map Token.value) c.arguments).errors).map
          (fun e => fmtError e.message),
       .pipelineExit (some 1)) := by
  have hphases : phases = phases.take 8 ++ phases.drop 8 := (List.take_append_drop 8 phases).symm
  have hdrop : runPhases ext cfg (phases.drop 8) ctx8 =
      ((ctx8.errors ++ (parseOptions ext.env ctx8.tokens c.options false).errors ++
        (parseArguments
          ((((parseOptions ext.env ctx8.tokens c.options false).remaining).filter
            (fun t => t.ttype = .argument)).map Token.value) c.arguments).errors).map
          (fun e => fmtError e.message),
       .exited (some 1)) := by
    show runPhases ext cfg
        [parseCommandOptionsPhase, parseArgumentsPhase, validatePhase, checkActionPhase] ctx8 = _
    simp only [runPhases, parseCommandOptionsPhase, parseArgumentsPhase, validatePhase, hcmd]
    rw [if_pos]
    · simp
    · exact hne
  unfold runCli runPipeline
  conv_lhs => rw [hphases]
  rw [runPhases_append ext cfg (phases.drop 8) (phases.take 8) (initialContext argv), h8]
  simp only [hdrop]

/-- Demo command with one required string argument and one required
numeric option. -/
def demoSrvCmd : Cmd :=
  .mk "srv" [{ name := "x", required := true, type := .string }]
    [{ name := "port", type := .number, required := true }] []
    (some (["srv-action"], none)) [] [] false

/-- Demo configuration around `demoSrvCmd`. -/
def demoCfg2 : CliConfig :=
  { name := "app", version := "1", commands := [("srv", demoSrvCmd)], globalOptions := [] }

/-- Witness for `c6_validate_surfaces_all`: `srv --port=abc` accumulates
one coercion error from the option pass and one requirement error from
the argument pass; both are printed together and the run exits with code
1 without executing the action. -/
theorem c6_validate_surfaces_all_witness :
    runCli demoExt demoCfg2 ["srv", "--port=abc"] =
      (["error: Invalid value for --port: \"abc\" is not a valid number",
        "error: Missing required argument: <x>"],
       .pipelineExit (some 1)) :=
  c6_validate_surfaces_all demoExt demoCfg2 ["srv", "--port=abc"] []
    { argv := ["srv", "--port=abc"],
      tokens := [⟨.option, "port", "--port=abc"⟩, ⟨.value, "abc", "abc"⟩],
      globalOptions := [], commandPath := ["srv"], command := some demoSrvCmd,
      parentCommands := [], commandOptions := [], args := [], errors := [],
      firstUnknownArg := none }
    demoSrvCmd rfl rfl (by decide)
